import Mathlib

/-!
Shallow embedding of the interactive comic scraper (comics-scrapper-v3.py)
and verification of its specification claims.

Python string primitives (strip, lower, split, int) are modelled on
`List Char`; network and filesystem effects are modelled as explicit
environments and state records.
-/

/-- Python whitespace characters (the ASCII fragment of `\s` / `str.strip`). -/
def pyWS (c : Char) : Bool :=
  c = ' ' || c = '\t' || c = '\n' || c = '\r' || c = '\x0b' || c = '\x0c'

/-- Python `str.strip()` on a character list. -/
def pyStripL (l : List Char) : List Char :=
  ((l.dropWhile pyWS).reverse.dropWhile pyWS).reverse

/-- Python `str.lower()` (ASCII fragment). -/
def pyLowerL (l : List Char) : List Char := l.map Char.toLower

/-- Python `s.split(sep)` for a one-character separator: keeps empty pieces,
`"".split(sep) = [""]`. -/
def splitChar (sep : Char) : List Char → List (List Char)
  | [] => [[]]
  | c :: rest =>
    if c = sep then [] :: splitChar sep rest
    else
      match splitChar sep rest with
      | h :: t => (c :: h) :: t
      | [] => [[c]]

/-- Python `int(s)`: surrounding whitespace allowed, then an optional sign and
one or more decimal digits; anything else raises `ValueError` (here: `none`). -/
def pyInt (l : List Char) : Option Int :=
  let digitsVal : List Char → Option Nat := fun ds =>
    if !ds.isEmpty && ds.all Char.isDigit then
      some (ds.foldl (fun acc c => acc * 10 + (c.toNat - 48)) 0)
    else none
  match pyStripL l with
  | '+' :: ds => (digitsVal ds).map (fun n => (n : Int))
  | '-' :: ds => (digitsVal ds).map (fun n => -(n : Int))
  | ds => (digitsVal ds).map (fun n => (n : Int))

/-- Outcome of one round of `get_user_selection` on a single input line. -/
inductive SelectionResult where
  | cancel
  | chosen (idxs : List Int)
  | invalidFormat
  | noValidSelection
deriving DecidableEq, Repr

/-- Python `range(a, b + 1)` over integers (empty when `b < a`). -/
def intRange (a b : Int) : List Int :=
  (List.range (b + 1 - a).toNat).map (fun (k : Nat) => a + (k : Int))

/-- Python `list(range(n))` as integers. -/
def allIndices (n : Nat) : List Int :=
  (List.range n).map (fun (k : Nat) => (k : Int))

/-- One token of the selection string (`for part in parts` body): yields the
token's index contribution, `ok []` for reported-and-skipped out-of-range
tokens, and `error` for tokens on which `int()` or tuple unpacking raises. -/
def tokenStep (n : Nat) (part0 : List Char) : Except Unit (List Int) :=
  let part := pyStripL part0
  if part.contains '-' then
    match splitChar '-' part with
    | [s, e] =>
      match pyInt s, pyInt e with
      | some a, some b =>
        let si := a - 1
        let ei := b - 1
        if 0 ≤ si ∧ si < (n : Int) ∧ 0 ≤ ei ∧ ei < (n : Int) then
          Except.ok (intRange si ei)
        else Except.ok []
      | _, _ => Except.error ()
    | _ => Except.error ()
  else
    match pyInt part with
    | some a =>
      let i := a - 1
      if 0 ≤ i ∧ i < (n : Int) then Except.ok [i] else Except.ok []
    | none => Except.error ()

/-- The `for part in parts` loop accumulating `selected_indices`; a raised
`ValueError` aborts the whole loop. -/
def tokensLoop (n : Nat) : List (List Char) → List Int → Except Unit (List Int)
  | [], acc => Except.ok acc
  | t :: rest, acc =>
    match tokenStep n t with
    | Except.error _ => Except.error ()
    | Except.ok contrib => tokensLoop n rest (acc ++ contrib)

/-- Python `sorted(list(set(xs)))`. -/
def sortedDedup (xs : List Int) : List Int := xs.dedup.insertionSort (· ≤ ·)

/-- One round of `get_user_selection`: classifies the operator's input line
against `n` candidates. `cancel` models the `return []` on `"q"`;
`invalidFormat` and `noValidSelection` model the re-prompting branches. -/
def get_user_selection (inp : String) (n : Nat) : SelectionResult :=
  let s := pyLowerL (pyStripL inp.toList)
  if s = "q".toList then SelectionResult.cancel
  else if s = "all".toList then SelectionResult.chosen (allIndices n)
  else
    match tokensLoop n (splitChar ',' s) [] with
    | Except.error _ => SelectionResult.invalidFormat
    | Except.ok sel =>
      let sorted := sortedDedup sel
      if sorted.isEmpty then SelectionResult.noValidSelection
      else SelectionResult.chosen sorted

/-- The character class `[<>:"/\\|?*]` of the first `re.sub` in
`sanitize_filename`. -/
def badChar (c : Char) : Bool :=
  c = '<' || c = '>' || c = ':' || c = '"' || c = '/' || c = '\\' ||
  c = '|' || c = '?' || c = '*'

/-- Python `re.sub(r"\s+", " ", s)`: each maximal whitespace run becomes a
single space. -/
def collapseWS : List Char → List Char
  | [] => []
  | [c] => if pyWS c then [' '] else [c]
  | a :: b :: rest =>
    if pyWS a && pyWS b then collapseWS (b :: rest)
    else (if pyWS a then ' ' else a) :: collapseWS (b :: rest)

/-- `sanitize_filename`: replace illegal characters with `_`, collapse
whitespace, strip, truncate to 200 characters. -/
def sanitize_filename (filename : String) : String :=
  let l := filename.toList.map (fun c => if badChar c then '_' else c)
  let l := pyStripL (collapseWS l)
  String.mk (l.take 200)

/-- A comic candidate (`class Comic`). -/
structure Comic where
  title : String
  page_url : String
  download_link : Option String := none
  downloaded : Bool := false
deriving DecidableEq, Repr

/-- An `<article>` listing block, abstracted to what `search_comics` reads:
the `href` attributes of its `<a>` tags (`None` when the attribute is
missing) and the text of its `<h1>` tags. -/
structure Article where
  links : List (Option String)
  headings : List String
deriving DecidableEq, Repr

/-- Result of fetching and parsing one listing page: a transport/parse
failure, or the page's `<article>` blocks. -/
inductive PageResult where
  | fail
  | ok (articles : List Article)
deriving DecidableEq, Repr

/-- The per-`article` body of the `for post in posts_lists` loop: skip when
fewer than three links, when the third link has no `href`, when there is no
heading, or when `page_url`/stripped heading is empty. -/
def parsePost (post : Article) : Option Comic :=
  if post.links.length < 3 then none
  else
    match post.links[2]? with
    | none => none
    | some page_url =>
      match post.headings with
      | [] => none
      | h :: _ =>
        let heading := String.mk (pyStripL h.toList)
        match page_url with
        | none => none
        | some u =>
          if u = "" ∨ heading = "" then none
          else some { title := heading, page_url := u }

/-- The valid entries a given page contributes (empty for a failed fetch). -/
def pageEntries (fetch : Nat → PageResult) (p : Nat) : List Comic :=
  match fetch p with
  | PageResult.fail => []
  | PageResult.ok articles => articles.filterMap parsePost

/-- The `while len(all_comics) < max_results` loop of `search_comics`,
with the requested page numbers recorded. `fuel` bounds the recursion; the
loop itself stops at page 10. -/
def searchGo (fetch : Nat → PageResult) (maxR : Nat) :
    Nat → Nat → List Comic → List Nat → List Comic × List Nat
  | 0, _, acc, reqs => (acc, reqs)
  | fuel + 1, page, acc, reqs =>
    if acc.length < maxR then
      let reqs := reqs ++ [page]
      match fetch page with
      | PageResult.fail => (acc, reqs)
      | PageResult.ok articles =>
        if articles.isEmpty then (acc, reqs)
        else
          let page_comics := articles.filterMap parsePost
          if page_comics.isEmpty then (acc, reqs)
          else
            let acc := acc ++ page_comics
            if maxR ≤ acc.length then (acc.take maxR, reqs)
            else if 10 < page + 1 then (acc, reqs)
            else searchGo fetch maxR fuel (page + 1) acc reqs
    else (acc, reqs)

/-- `search_comics`, with the abstract page fetcher as an explicit
environment; also returns the list of requested page numbers. -/
def search_comics (fetch : Nat → PageResult) (maxR : Nat) :
    List Comic × List Nat :=
  searchGo fetch maxR 10 1 [] []

/-- Result of fetching one detail page in `extract_download_link`: a
transport/parse failure, or the serialized contents of the
`div.aio-button-center` elements found by `find_all`. -/
inductive DetailFetch where
  | fail
  | ok (divs : List String)
deriving DecidableEq, Repr

/-- The character class of the link pattern
`https://[a-zA-Z0-9./%\-=+:?&_]+`. -/
def linkChar (c : Char) : Bool :=
  c.isAlphanum || c = '.' || c = '/' || c = '%' || c = '-' || c = '=' ||
  c = '+' || c = ':' || c = '?' || c = '&' || c = '_'

/-- The literal part of the link pattern. -/
def httpsPre : List Char := "https://".toList

/-- Try the link pattern anchored at the head of `l`: the literal
`https://` followed by a greedy, non-empty run of `linkChar`s. -/
def matchHttpsAt (l : List Char) : Option (List Char) :=
  if httpsPre.isPrefixOf l then
    let body := (l.drop 8).takeWhile linkChar
    if body.isEmpty then none else some (httpsPre ++ body)
  else none

/-- Leftmost match of the link pattern (`findall`'s first element). -/
def scanLink : List Char → Option (List Char)
  | [] => none
  | c :: rest =>
    match matchHttpsAt (c :: rest) with
    | some m => some m
    | none => scanLink rest

/-- `extract_download_link`, with the detail-page fetch as an explicit
environment. -/
def extract_download_link (fetch : String → DetailFetch) (page_url : String) :
    Option String :=
  match fetch page_url with
  | DetailFetch.fail => none
  | DetailFetch.ok divs =>
    match divs with
    | [] => none
    | d :: _ =>
      match scanLink d.toList with
      | some m => some (String.mk m)
      | none => none

/-- Filesystem state: written files (path with content), existing
directories, and whether `os.makedirs` succeeds. -/
structure FS where
  files : List (String × String)
  dirs : List String
  mkdirOk : Bool
deriving DecidableEq, Repr

/-- `os.path.exists` for a file path. -/
def FS.fileExists (fs : FS) (p : String) : Bool :=
  fs.files.any (fun f => f.1 = p)

/-- `create_download_dir`. -/
def create_download_dir (fs : FS) (dir : String) : Bool × FS :=
  if fs.dirs.contains dir then (true, fs)
  else if fs.mkdirOk then (true, { fs with dirs := dir :: fs.dirs })
  else (false, fs)

/-- Outcome of `requests.get` on an artifact link: full content, a failure
before any byte is written (e.g. `raise_for_status`), or a mid-stream
failure after writing a partial file. -/
inductive NetResult where
  | success (content : String)
  | failBefore
  | failMid (written : String)
deriving DecidableEq, Repr

/-- `os.path.join` for the paths this program builds (sanitized filenames
never contain a separator). -/
def pyJoin (dir fname : String) : String :=
  if dir = "" then fname
  else if dir.toList.getLast? = some '/' then dir ++ fname
  else dir ++ "/" ++ fname

/-- Substring test (Python `in` on strings). -/
def hasSubstr (needle : List Char) : List Char → Bool
  | [] => needle.isEmpty
  | c :: rest => needle.isPrefixOf (c :: rest) || hasSubstr needle rest

/-- The destination path `download_file` computes for a title and link. -/
def computedPath (dir title link : String) : String :=
  let fname := sanitize_filename title
  let fname :=
    if hasSubstr ".zip".toList (pyLowerL link.toList) then fname ++ ".zip"
    else fname ++ ".cbr"
  pyJoin dir fname

/-- `download_file`, with the artifact request as an explicit environment.
Returns the success flag, the new filesystem state, and whether a network
request for the artifact was issued. -/
def download_file (net : String → NetResult) (fs : FS)
    (link fname dir : String) : Bool × FS × Bool :=
  let (ok, fs) := create_download_dir fs dir
  if !ok then (false, fs, false)
  else
    let filepath := computedPath dir fname link
    if fs.fileExists filepath then (true, fs, false)
    else
      match net link with
      | NetResult.success content =>
        (true, { fs with files := (filepath, content) :: fs.files }, true)
      | NetResult.failBefore => (false, fs, true)
      | NetResult.failMid w =>
        (false, { fs with files := (filepath, w) :: fs.files }, true)

/-- Result of processing one selected comic in `download_selected_comics`. -/
structure StepResult where
  comic : Comic
  fs : FS
  transferred : Bool
  resolverCalled : Bool
  success : Bool
deriving DecidableEq, Repr

/-- Download one comic through a known link `l`: store the link on the
candidate, run `download_file`, and mark `downloaded` on success.
`called` records whether the resolver ran for this candidate. -/
def downloadLinked (net : String → NetResult) (fs : FS) (comic : Comic)
    (dir l : String) (called : Bool) : StepResult :=
  match download_file net fs l comic.title dir with
  | (ok, fs', tr) =>
    if ok then
      { comic := { comic with download_link := some l, downloaded := true },
        fs := fs', transferred := tr, resolverCalled := called,
        success := true }
    else
      { comic := { comic with download_link := some l }, fs := fs',
        transferred := tr, resolverCalled := called, success := false }

/-- Resolve a candidate's link via `extract_download_link`, then download;
a failed resolution records the failure with no transfer. -/
def resolveOutcome (detail : String → DetailFetch) (net : String → NetResult)
    (fs : FS) (comic : Comic) (dir : String) : StepResult :=
  match extract_download_link detail comic.page_url with
  | some l2 => downloadLinked net fs comic dir l2 true
  | none =>
    { comic := { comic with download_link := none }, fs := fs,
      transferred := false, resolverCalled := true, success := false }

/-- The body of the `for i, idx in enumerate(selected_indices)` loop for a
single comic: resolve the link when it is falsy (`None` or `""`), then
download. -/
def processComic (detail : String → DetailFetch) (net : String → NetResult)
    (fs : FS) (comic : Comic) (dir : String) : StepResult :=
  match comic.download_link with
  | some l =>
    if l = "" then resolveOutcome detail net fs comic dir
    else downloadLinked net fs comic dir l false
  | none => resolveOutcome detail net fs comic dir

/-- One iteration of the loop in `download_selected_comics`: look up the
selected index and process that candidate. -/
def dscStep (detail : String → DetailFetch) (net : String → NetResult)
    (dir : String) (st : List Comic × FS) (idx : Nat) : List Comic × FS :=
  match st.1[idx]? with
  | none => st
  | some c =>
    let r := processComic detail net st.2 c dir
    (st.1.set idx r.comic, r.fs)

/-- `download_selected_comics`: process each selected index in order,
updating the candidate list and the filesystem. -/
def download_selected_comics (detail : String → DetailFetch)
    (net : String → NetResult) (comics : List Comic) (selected : List Nat)
    (dir : String) (fs : FS) : List Comic × FS :=
  selected.foldl (dscStep detail net dir) (comics, fs)

/-! ## Lemmas about the selection parser -/

theorem tokensLoop_skip_single (n : Nat) (t : List Char)
    (rest : List (List Char)) (acc : List Int) (a : Int)
    (hc : (pyStripL t).contains '-' = false)
    (hi : pyInt (pyStripL t) = some a)
    (hr : ¬(0 ≤ a - 1 ∧ a - 1 < (n : Int))) :
    tokensLoop n (t :: rest) acc = tokensLoop n rest acc := by
  have hstep : tokenStep n t = Except.ok [] := by
    unfold tokenStep
    simp only [hc, Bool.false_eq_true, if_false, hi, if_neg hr]
  simp [tokensLoop, hstep]

theorem tokensLoop_abort_single (n : Nat) (t : List Char)
    (rest : List (List Char)) (acc : List Int)
    (hc : (pyStripL t).contains '-' = false)
    (hi : pyInt (pyStripL t) = none) :
    tokensLoop n (t :: rest) acc = Except.error () := by
  have hstep : tokenStep n t = Except.error () := by
    unfold tokenStep
    simp only [hc, Bool.false_eq_true, if_false, hi]
  simp [tokensLoop, hstep]

theorem tokensLoop_skip_range (n : Nat) (t : List Char)
    (rest : List (List Char)) (acc : List Int) (s e : List Char) (a b : Int)
    (hc : (pyStripL t).contains '-' = true)
    (hsp : splitChar '-' (pyStripL t) = [s, e])
    (ha : pyInt s = some a) (hb : pyInt e = some b)
    (hr : ¬(0 ≤ a - 1 ∧ a - 1 < (n : Int) ∧ 0 ≤ b - 1 ∧ b - 1 < (n : Int))) :
    tokensLoop n (t :: rest) acc = tokensLoop n rest acc := by
  have hstep : tokenStep n t = Except.ok [] := by
    unfold tokenStep
    simp only [hc, if_true, hsp, ha, hb, if_neg hr]
  simp [tokensLoop, hstep]

theorem tokensLoop_abort_range_bound (n : Nat) (t : List Char)
    (rest : List (List Char)) (acc : List Int) (s e : List Char)
    (hc : (pyStripL t).contains '-' = true)
    (hsp : splitChar '-' (pyStripL t) = [s, e])
    (hne : pyInt s = none ∨ pyInt e = none) :
    tokensLoop n (t :: rest) acc = Except.error () := by
  have hstep : tokenStep n t = Except.error () := by
    unfold tokenStep
    rcases hne with hne | hne
    · simp only [hc, if_true, hsp, hne]
    · cases ha : pyInt s with
      | none => simp only [hc, if_true, hsp, ha]
      | some a => simp only [hc, if_true, hsp, ha, hne]
  simp [tokensLoop, hstep]

theorem tokensLoop_abort_range_malformed (n : Nat) (t : List Char)
    (rest : List (List Char)) (acc : List Int)
    (hc : (pyStripL t).contains '-' = true)
    (hmal : ∀ s e : List Char, splitChar '-' (pyStripL t) ≠ [s, e]) :
    tokensLoop n (t :: rest) acc = Except.error () := by
  have hstep : tokenStep n t = Except.error () := by
    unfold tokenStep
    simp only [hc, if_true]
  simp [tokensLoop, hstep]

/-! ## C1 -/

/-- C1 counterexample: the input `"1,3,7-9,q"` with 10 candidates does not
return the CANCEL sentinel; `int("q")` raises, so the round is classified
as invalid-format and the operator is re-prompted. -/
theorem spec_c1_cex :
    get_user_selection "1,3,7-9,q" 10 = SelectionResult.invalidFormat ∧
      get_user_selection "1,3,7-9,q" 10 ≠ SelectionResult.cancel := by
  constructor
  · decide
  · decide

/-- C1 (amended): `get_user_selection` returns CANCEL exactly when the
whole input, after stripping and lowercasing, is the single token `q`; a
`q` token among other comma-separated tokens does not cancel. -/
theorem spec_c1_amended (inp : String) (n : Nat) :
    get_user_selection inp n = SelectionResult.cancel ↔
      pyLowerL (pyStripL inp.toList) = "q".toList := by
  unfold get_user_selection
  by_cases h1 : pyLowerL (pyStripL inp.toList) = "q".toList
  · rw [if_pos h1]; exact iff_of_true rfl h1
  · rw [if_neg h1]
    apply iff_of_false _ h1
    by_cases h2 : pyLowerL (pyStripL inp.toList) = "all".toList
    · rw [if_pos h2]; simp
    · rw [if_neg h2]
      cases htl : tokensLoop n (splitChar ',' (pyLowerL (pyStripL inp.toList))) [] with
      | error e => simp
      | ok sel => by_cases he : (sortedDedup sel).isEmpty <;> simp [he]

/-! ## C2 -/

/-- C2 counterexample: with input `"abc,2"` and 10 candidates the
non-numeric token `abc` is not skipped individually: the whole parse
aborts as invalid-format instead of yielding the valid token's
contribution `{1}`. -/
theorem spec_c2_cex :
    get_user_selection "abc,2" 10 = SelectionResult.invalidFormat ∧
      get_user_selection "abc,2" 10 ≠ SelectionResult.chosen [1] := by
  constructor
  · decide
  · decide

/-- C2 (amended): out-of-range numeric tokens — single numbers as well as
well-formed ranges whose two bounds both parse as integers — are reported
and skipped individually, parsing continuing with the remaining tokens;
but a token on which `int()` or tuple unpacking fails (non-numeric text, a
range bound that is not an integer, or a range that does not split into
exactly two parts) raises `ValueError`, aborting the entire parse attempt
and discarding all contributions. -/
theorem spec_c2_amended (n : Nat) (t : List Char) (rest : List (List Char))
    (acc : List Int) :
    (∀ a : Int, (pyStripL t).contains '-' = false →
       pyInt (pyStripL t) = some a → ¬(0 ≤ a - 1 ∧ a - 1 < (n : Int)) →
       tokensLoop n (t :: rest) acc = tokensLoop n rest acc) ∧
    ((pyStripL t).contains '-' = false → pyInt (pyStripL t) = none →
       tokensLoop n (t :: rest) acc = Except.error ()) ∧
    (∀ (s e : List Char) (a b : Int), (pyStripL t).contains '-' = true →
       splitChar '-' (pyStripL t) = [s, e] →
       pyInt s = some a → pyInt e = some b →
       ¬(0 ≤ a - 1 ∧ a - 1 < (n : Int) ∧ 0 ≤ b - 1 ∧ b - 1 < (n : Int)) →
       tokensLoop n (t :: rest) acc = tokensLoop n rest acc) ∧
    (∀ s e : List Char, (pyStripL t).contains '-' = true →
       splitChar '-' (pyStripL t) = [s, e] →
       (pyInt s = none ∨ pyInt e = none) →
       tokensLoop n (t :: rest) acc = Except.error ()) ∧
    ((pyStripL t).contains '-' = true →
       (∀ s e : List Char, splitChar '-' (pyStripL t) ≠ [s, e]) →
       tokensLoop n (t :: rest) acc = Except.error ()) := by
  refine ⟨?_, ?_, ?_, ?_, ?_⟩
  · intro a hc hi hr
    exact tokensLoop_skip_single n t rest acc a hc hi hr
  · intro hc hi
    exact tokensLoop_abort_single n t rest acc hc hi
  · intro s e a b hc hsp ha hb hr
    exact tokensLoop_skip_range n t rest acc s e a b hc hsp ha hb hr
  · intro s e hc hsp hne
    exact tokensLoop_abort_range_bound n t rest acc s e hc hsp hne
  · intro hc hmal
    exact tokensLoop_abort_range_malformed n t rest acc hc hmal

/-- Witness for C2: the out-of-range single token `100` and the
out-of-range well-formed range `90-95` are each skipped while parsing
continues; the non-numeric token `abc`, the range `a-2` with a
non-integer bound, and the malformed range `1-2-3` each abort the loop. -/
theorem spec_c2_witness :
    tokensLoop 10 ["100".toList, "2".toList] [] =
        tokensLoop 10 ["2".toList] [] ∧
      tokensLoop 10 ["abc".toList, "2".toList] [] = Except.error () ∧
      tokensLoop 10 ["90-95".toList, "2".toList] [] =
        tokensLoop 10 ["2".toList] [] ∧
      tokensLoop 10 ["a-2".toList, "2".toList] [] = Except.error () ∧
      tokensLoop 10 ["1-2-3".toList, "2".toList] [] = Except.error () := by
  refine ⟨?_, ?_, ?_, ?_, ?_⟩
  · exact (spec_c2_amended 10 "100".toList ["2".toList] []).1 100
      (by decide) (by decide) (by decide)
  · exact (spec_c2_amended 10 "abc".toList ["2".toList] []).2.1
      (by decide) (by decide)
  · exact (spec_c2_amended 10 "90-95".toList ["2".toList] []).2.2.1
      "90".toList "95".toList 90 95 (by decide) (by decide) (by decide)
      (by decide) (by decide)
  · exact (spec_c2_amended 10 "a-2".toList ["2".toList] []).2.2.2.1
      "a".toList "2".toList (by decide) (by decide) (Or.inl (by decide))
  · refine (spec_c2_amended 10 "1-2-3".toList ["2".toList] []).2.2.2.2
      (by decide) ?_
    intro s e h
    have h3 : (splitChar '-' (pyStripL "1-2-3".toList)).length = 3 := by
      decide
    rw [h] at h3
    simp at h3

/-! ## C10 -/

/-- C10: a descending range token `a-b` (1-based bounds both within
`[1, n]` but `b < a`) contributes no indices, raises no error, and the
remaining tokens are parsed exactly as if the token were absent. -/
theorem spec_c10 (n : Nat) (t : List Char) (rest : List (List Char))
    (acc : List Int) (s e : List Char) (a b : Int)
    (hc : (pyStripL t).contains '-' = true)
    (hsp : splitChar '-' (pyStripL t) = [s, e])
    (ha : pyInt s = some a) (hb : pyInt e = some b)
    (ha1 : 1 ≤ a) (han : a ≤ (n : Int))
    (hb1 : 1 ≤ b) (hba : b < a) :
    tokenStep n t = Except.ok [] ∧
      tokensLoop n (t :: rest) acc = tokensLoop n rest acc := by
  have hrange : intRange (a - 1) (b - 1) = [] := by
    unfold intRange
    have : (b - 1 + 1 - (a - 1)).toNat = 0 := by
      rw [Int.toNat_eq_zero]; omega
    rw [this]
    simp
  have hcond : 0 ≤ a - 1 ∧ a - 1 < (n : Int) ∧ 0 ≤ b - 1 ∧ b - 1 < (n : Int) := by
    omega
  have hstep : tokenStep n t = Except.ok [] := by
    unfold tokenStep
    simp only [hc, if_true, hsp, ha, hb, if_pos hcond, hrange]
  exact ⟨hstep, by simp [tokensLoop, hstep]⟩

/-- Witness for C10: the descending in-range token `5-2` with 10
candidates is skipped and parsing continues with the token `1`. -/
theorem spec_c10_witness :
    tokenStep 10 "5-2".toList = Except.ok [] ∧
      tokensLoop 10 ["5-2".toList, "1".toList] [] =
        tokensLoop 10 ["1".toList] [] := by
  exact spec_c10 10 "5-2".toList ["1".toList] [] "5".toList "2".toList 5 2
    (by decide) (by decide) (by decide) (by decide) (by decide) (by decide)
    (by decide) (by decide)

/-! ## C4 -/

theorem mem_intRange {a b x : Int} (h : x ∈ intRange a b) : a ≤ x ∧ x ≤ b := by
  unfold intRange at h
  simp only [List.mem_map, List.mem_range] at h
  obtain ⟨k, hk, rfl⟩ := h
  omega

theorem tokenStep_bounds (n : Nat) (t : List Char) (contrib : List Int)
    (h : tokenStep n t = Except.ok contrib) :
    ∀ x ∈ contrib, 0 ≤ x ∧ x < (n : Int) := by
  simp only [tokenStep] at h
  split at h
  · split at h
    · split at h
      · split at h
        · injection h with h
          subst h
          intro x hx
          have hm := mem_intRange hx
          omega
        · injection h with h
          subst h
          intro x hx
          simp at hx
      · simp at h
    · simp at h
  · split at h
    · split at h
      · injection h with h
        subst h
        intro x hx
        rcases List.mem_singleton.mp hx with rfl
        omega
      · injection h with h
        subst h
        intro x hx
        simp at hx
    · simp at h

theorem tokensLoop_bounds (n : Nat) :
    ∀ (ts : List (List Char)) (acc res : List Int),
      tokensLoop n ts acc = Except.ok res →
      (∀ x ∈ acc, 0 ≤ x ∧ x < (n : Int)) →
      ∀ x ∈ res, 0 ≤ x ∧ x < (n : Int) := by
  intro ts
  induction ts with
  | nil =>
    intro acc res h hacc
    injection h with h
    subst h
    exact hacc
  | cons t rest ih =>
    intro acc res h hacc
    unfold tokensLoop at h
    cases hstep : tokenStep n t with
    | error e => rw [hstep] at h; simp at h
    | ok contrib =>
      rw [hstep] at h
      refine ih _ _ h ?_
      intro x hx
      rcases List.mem_append.mp hx with hx | hx
      · exact hacc x hx
      · exact tokenStep_bounds n t contrib hstep x hx

theorem sortedDedup_sorted (xs : List Int) :
    (sortedDedup xs).Sorted (· < ·) := by
  have hs : (sortedDedup xs).Sorted (· ≤ ·) := List.sorted_insertionSort _ _
  have hn : (sortedDedup xs).Nodup :=
    (List.perm_insertionSort (· ≤ ·) xs.dedup).nodup_iff.mpr (List.nodup_dedup xs)
  exact hs.lt_of_le hn

theorem mem_sortedDedup {x : Int} {xs : List Int} :
    x ∈ sortedDedup xs ↔ x ∈ xs := by
  unfold sortedDedup
  rw [List.mem_insertionSort, List.mem_dedup]

theorem allIndices_sorted (n : Nat) : (allIndices n).Sorted (· < ·) := by
  refine List.Pairwise.map _ ?_ (List.pairwise_lt_range n)
  intro a b hab
  omega

theorem mem_allIndices (n : Nat) {x : Int} (h : x ∈ allIndices n) :
    0 ≤ x ∧ x < (n : Int) := by
  unfold allIndices at h
  simp only [List.mem_map, List.mem_range] at h
  obtain ⟨k, hk, rfl⟩ := h
  omega

/-- Decidable check that `l` is a strict subset of the integer interval
`[0, n)`. -/
def isStrictSubsetRange (l : List Int) (n : Nat) : Bool :=
  l.all (fun i => decide (0 ≤ i) && decide (i < (n : Int))) &&
    (List.range n).any (fun k => !(l.contains ((k : Int))))

/-- C4 counterexample: the accepted input `"1"` with one candidate yields
`[0]`, which is the whole of `[0, 1)` and therefore not a strict subset as
the claim requires. -/
theorem spec_c4_cex :
    get_user_selection "1" 1 = SelectionResult.chosen [0] ∧
      isStrictSubsetRange [0] 1 = false := by
  constructor
  · decide
  · decide

/-- C4 (amended): every selection the parser returns is strictly
ascending, duplicate-free, and a subset (not necessarily strict) of
`[0, candidate_count)`; input `"2-4,2"` with 10 candidates yields exactly
`[1, 2, 3]` (zero-based, duplicates collapsed). -/
theorem spec_c4_amended :
    (∀ (inp : String) (n : Nat) (l : List Int),
        get_user_selection inp n = SelectionResult.chosen l →
        l.Sorted (· < ·) ∧ ∀ i ∈ l, 0 ≤ i ∧ i < (n : Int)) ∧
      get_user_selection "2-4,2" 10 = SelectionResult.chosen [1, 2, 3] := by
  constructor
  · intro inp n l h
    unfold get_user_selection at h
    by_cases h1 : pyLowerL (pyStripL inp.toList) = "q".toList
    · rw [if_pos h1] at h; simp at h
    · rw [if_neg h1] at h
      by_cases h2 : pyLowerL (pyStripL inp.toList) = "all".toList
      · rw [if_pos h2] at h
        injection h with h
        subst h
        refine ⟨allIndices_sorted n, ?_⟩
        intro i hi
        exact mem_allIndices n hi
      · rw [if_neg h2] at h
        cases htl : tokensLoop n (splitChar ',' (pyLowerL (pyStripL inp.toList))) [] with
        | error e => rw [htl] at h; simp at h
        | ok sel =>
          rw [htl] at h
          by_cases he : (sortedDedup sel).isEmpty
          · simp only [he, if_true] at h
            simp at h
          · rw [Bool.not_eq_true] at he
            simp only [he, Bool.false_eq_true, if_false] at h
            injection h with h
            subst h
            refine ⟨sortedDedup_sorted sel, ?_⟩
            intro i hi
            exact tokensLoop_bounds n _ [] sel htl (by intro x hx; simp at hx)
              i (mem_sortedDedup.mp hi)
  · decide

/-- Witness for C4: the scenario input evaluates to `[1, 2, 3]`, which the
amended theorem certifies to be strictly ascending. -/
theorem spec_c4_witness :
    get_user_selection "2-4,2" 10 = SelectionResult.chosen [1, 2, 3] ∧
      List.Sorted (· < ·) ([1, 2, 3] : List Int) :=
  ⟨by decide, (spec_c4_amended.1 "2-4,2" 10 [1, 2, 3] (by decide)).1⟩

/-! ## C9 -/

/-- No two adjacent whitespace characters. -/
def noAdjSpaces : List Char → Bool
  | a :: b :: rest => (!(pyWS a && pyWS b)) && noAdjSpaces (b :: rest)
  | _ => true

/-- A title already in the sanitizer's normal form for whitespace: every
whitespace character is a plain space, no two adjacent, none at either
end, and the length is within the 200-character bound. -/
def normalizedTitle (l : List Char) : Bool :=
  l.all (fun c => !pyWS c || c = ' ') && noAdjSpaces l &&
    (match l.head? with | some c => !pyWS c | none => true) &&
    (match l.getLast? with | some c => !pyWS c | none => true) &&
    decide (l.length ≤ 200)

theorem head?_dropWhile_false {α} (p : α → Bool) :
    ∀ (l : List α) (c : α), (l.dropWhile p).head? = some c → p c = false := by
  intro l
  induction l with
  | nil => intro c h; simp at h
  | cons a rest ih =>
    intro c h
    rw [List.dropWhile_cons] at h
    by_cases ha : p a
    · rw [if_pos ha] at h; exact ih c h
    · rw [if_neg ha] at h
      simp only [List.head?_cons, Option.some.injEq] at h
      subst h
      exact Bool.not_eq_true _ ▸ ha

theorem dropWhile_eq_self_of_head {α} (p : α → Bool) (l : List α)
    (h : ∀ c, l.head? = some c → p c = false) : l.dropWhile p = l := by
  cases l with
  | nil => rfl
  | cons a rest =>
    rw [List.dropWhile_cons, if_neg]
    rw [h a rfl]
    simp

/-- A character list is trimmed: neither end is whitespace. -/
def isTrimmedB (l : List Char) : Bool :=
  (match l.head? with | some c => !pyWS c | none => true) &&
    (match l.getLast? with | some c => !pyWS c | none => true)

theorem mem_pyStripL {c : Char} {l : List Char} (h : c ∈ pyStripL l) :
    c ∈ l := by
  unfold pyStripL at h
  rw [List.mem_reverse] at h
  have h1 := (List.dropWhile_sublist pyWS).subset h
  rw [List.mem_reverse] at h1
  exact (List.dropWhile_sublist pyWS).subset h1

theorem pyStripL_eq_self (l : List Char)
    (hh : ∀ c, l.head? = some c → pyWS c = false)
    (hl : ∀ c, l.getLast? = some c → pyWS c = false) : pyStripL l = l := by
  unfold pyStripL
  rw [dropWhile_eq_self_of_head _ _ hh]
  rw [dropWhile_eq_self_of_head _ _ (by
    intro c hc
    rw [List.head?_reverse] at hc
    exact hl c hc)]
  exact List.reverse_reverse l

theorem isTrimmedB_pyStripL (l : List Char) : isTrimmedB (pyStripL l) = true := by
  unfold pyStripL isTrimmedB
  cases hB : ((l.dropWhile pyWS).reverse.dropWhile pyWS) with
  | nil => simp
  | cons b bs =>
    have hheadB : pyWS b = false :=
      head?_dropWhile_false pyWS ((l.dropWhile pyWS).reverse) b (by rw [hB]; rfl)
    obtain ⟨t, ht⟩ :=
      List.dropWhile_suffix (l := (l.dropWhile pyWS).reverse) pyWS
    rw [hB] at ht
    cases hc : (b :: bs).getLast? with
    | none => simp at hc
    | some c =>
      have hA : (l.dropWhile pyWS).head? = some c := by
        rw [← List.getLast?_reverse, ← ht, List.getLast?_append, hc]
        rfl
      have hcws : pyWS c = false := head?_dropWhile_false pyWS l c hA
      rw [List.head?_reverse, List.getLast?_reverse, hc]
      simp [hheadB, hcws]

theorem collapseWS_all (P : Char → Bool) (hsp : P ' ' = true) :
    ∀ l, (∀ c ∈ l, P c = true) → ∀ c ∈ collapseWS l, P c = true
  | [] => by intro _ c hc; simp [collapseWS] at hc
  | [a] => by
    intro h c hc
    simp only [collapseWS] at hc
    by_cases ha : pyWS a
    · rw [if_pos ha] at hc
      rcases List.mem_singleton.mp hc with rfl
      exact hsp
    · rw [if_neg ha] at hc
      rcases List.mem_singleton.mp hc with rfl
      exact h c (by simp)
  | a :: b :: rest => by
    intro h c hc
    simp only [collapseWS] at hc
    by_cases hab : pyWS a && pyWS b
    · rw [if_pos hab] at hc
      exact collapseWS_all P hsp (b :: rest)
        (fun d hd => h d (List.mem_cons_of_mem a hd)) c hc
    · rw [if_neg hab] at hc
      rcases List.mem_cons.mp hc with rfl | hc'
      · by_cases ha : pyWS a
        · rw [if_pos ha]; exact hsp
        · rw [if_neg ha]; exact h a (by simp)
      · exact collapseWS_all P hsp (b :: rest)
          (fun d hd => h d (List.mem_cons_of_mem a hd)) c hc'

theorem collapseWS_eq_self :
    ∀ l, (∀ c ∈ l, pyWS c = true → c = ' ') → noAdjSpaces l = true →
      collapseWS l = l
  | [] => by intro _ _; rfl
  | [a] => by
    intro h _
    simp only [collapseWS]
    by_cases ha : pyWS a
    · rw [if_pos ha, h a (by simp) ha]
    · rw [if_neg ha]
  | a :: b :: rest => by
    intro h hadj
    simp only [noAdjSpaces, Bool.and_eq_true, Bool.not_eq_true'] at hadj
    simp only [collapseWS]
    rw [if_neg (by rw [hadj.1]; simp)]
    have htail := collapseWS_eq_self (b :: rest)
      (fun d hd => h d (List.mem_cons_of_mem a hd))
      (by
        have := hadj.2
        simpa [noAdjSpaces] using this)
    rw [htail]
    by_cases ha : pyWS a
    · rw [if_pos ha, h a (by simp) ha]
    · rw [if_neg ha]

theorem noAdjSpaces_map (f : Char → Char) (hf : ∀ c, pyWS (f c) = pyWS c) :
    ∀ l, noAdjSpaces (l.map f) = noAdjSpaces l
  | [] => rfl
  | [a] => rfl
  | a :: b :: rest => by
    have ih := noAdjSpaces_map f hf (b :: rest)
    simp only [List.map_cons] at ih ⊢
    simp only [noAdjSpaces, hf]
    rw [ih]

/-- C9 counterexample: the title `" <"` contains `<`, but its sanitized
form `"_"` has a different length than the original, so the result does
not differ from the original only at the illegal-character positions. -/
theorem spec_c9_cex :
    (" <" : String).toList.contains '<' = true ∧
      sanitize_filename " <" = "_" ∧
      ¬(sanitize_filename " <").length = (" <" : String).length := by
  refine ⟨by decide, by decide, by decide⟩

/-- C9 (amended): the sanitized filename never contains a path-illegal
character and never exceeds 200 characters; and for titles whose
whitespace is already normalized (only single interior spaces, length at
most 200) sanitization is exactly the pointwise replacement of illegal
characters by `_` — same length, differing from the original only at the
illegal characters' positions. For other titles whitespace collapsing,
stripping or truncation may change further positions. -/
theorem spec_c9_amended :
    (∀ t : String,
        (sanitize_filename t).toList.all (fun c => !badChar c) = true) ∧
      (∀ t : String, (sanitize_filename t).length ≤ 200) ∧
      (∀ t : String, normalizedTitle t.toList = true →
        sanitize_filename t =
          String.mk (t.toList.map (fun c => if badChar c then '_' else c))) := by
  refine ⟨?_, ?_, ?_⟩
  · intro t
    rw [List.all_eq_true]
    intro c hc
    have hc1 : c ∈ pyStripL (collapseWS (t.toList.map
        (fun c => if badChar c then '_' else c))) := by
      have := List.take_sublist 200 (pyStripL (collapseWS (t.toList.map
        (fun c => if badChar c then '_' else c))))
      exact this.subset hc
    have hc2 := mem_pyStripL hc1
    have hc3 := collapseWS_all (fun c => !badChar c) (by decide) _
      (by
        intro d hd
        simp only [List.mem_map] at hd
        obtain ⟨e, _, rfl⟩ := hd
        by_cases hbe : badChar e
        · rw [if_pos hbe]; decide
        · rw [if_neg hbe]; simpa using hbe) c hc2
    exact hc3
  · intro t
    show (List.take 200 _).length ≤ 200
    rw [List.length_take]
    omega
  · intro t hnorm
    unfold normalizedTitle at hnorm
    simp only [Bool.and_eq_true, List.all_eq_true, decide_eq_true_eq] at hnorm
    obtain ⟨⟨⟨⟨hall, hadj⟩, hhead⟩, hlast⟩, hlen⟩ := hnorm
    simp only [sanitize_filename]
    have hf : ∀ c, pyWS (if badChar c then '_' else c) = pyWS c := by
      intro c
      by_cases hb : badChar c = true
      · rw [if_pos hb]
        simp only [badChar, Bool.or_eq_true, decide_eq_true_eq] at hb
        rcases hb with
          ((((((((rfl | rfl) | rfl) | rfl) | rfl) | rfl) | rfl) | rfl) | rfl) <;>
          rfl
      · rw [if_neg hb]
    have hws : ∀ c ∈ t.toList.map (fun c => if badChar c then '_' else c),
        pyWS c = true → c = ' ' := by
      intro c hc hwc
      simp only [List.mem_map] at hc
      obtain ⟨e, he, rfl⟩ := hc
      rw [hf e] at hwc
      have h2 := hall e he
      simp only [Bool.or_eq_true, Bool.not_eq_true', decide_eq_true_eq] at h2
      rcases h2 with h2 | h2
      · rw [hwc] at h2; cases h2
      · subst h2; rfl
    have hcoll : collapseWS (t.toList.map (fun c => if badChar c then '_' else c)) =
        t.toList.map (fun c => if badChar c then '_' else c) := by
      refine collapseWS_eq_self _ hws ?_
      rw [noAdjSpaces_map _ hf]
      exact hadj
    rw [hcoll]
    have hstrip : pyStripL (t.toList.map (fun c => if badChar c then '_' else c)) =
        t.toList.map (fun c => if badChar c then '_' else c) := by
      refine pyStripL_eq_self _ ?_ ?_
      · intro c hc
        rw [List.head?_map] at hc
        cases hh : t.toList.head? with
        | none => rw [hh] at hc; simp at hc
        | some d =>
          rw [hh] at hc
          simp only [Option.map_some', Option.some.injEq] at hc
          subst hc
          rw [hf d]
          have hd : (!pyWS d) = true := by rw [hh] at hhead; exact hhead
          simpa using hd
      · intro c hc
        rw [List.getLast?_map] at hc
        cases hh : t.toList.getLast? with
        | none => rw [hh] at hc; simp at hc
        | some d =>
          rw [hh] at hc
          simp only [Option.map_some', Option.some.injEq] at hc
          subst hc
          rw [hf d]
          have hd : (!pyWS d) = true := by rw [hh] at hlast; exact hlast
          simpa using hd
    rw [hstrip]
    rw [List.take_of_length_le (by rw [List.length_map]; exact hlen)]

/-- A listing block with three links and a heading, as in the spec's
search scenario. -/
def scenarioArticle : Article :=
  { links := [some "x", some "x", some "https://getcomics.org/c"],
    headings := ["Batman #1"] }

/-- The spec's search scenario: page 1 returns three valid entries, every
later page returns none. -/
def scenarioFetch : Nat → PageResult := fun p =>
  if p = 1 then PageResult.ok [scenarioArticle, scenarioArticle, scenarioArticle]
  else PageResult.ok []

/-- A filesystem whose destination directory and destination file already
exist. -/
def sampleFS : FS :=
  { files := [("d/t.cbr", "c")], dirs := ["d"], mkdirOk := true }

/-- A candidate whose link is already resolved. -/
def sampleComic : Comic :=
  { title := "t", page_url := "p", download_link := some "x" }

/-- Witness for C9: the normalized title `"a<b"` sanitizes exactly to the
pointwise replacement `"a_b"`. -/
theorem spec_c9_witness :
    normalizedTitle "a<b".toList = true ∧ sanitize_filename "a<b" = "a_b" := by
  refine ⟨by decide, ?_⟩
  have h := spec_c9_amended.2.2 "a<b" (by decide)
  rw [h]
  decide

/-! ## C3 -/

theorem parsePost_good (post : Article) (c : Comic)
    (h : parsePost post = some c) :
    c.title ≠ "" ∧ isTrimmedB c.title.toList = true ∧ c.page_url ≠ "" := by
  unfold parsePost at h
  by_cases h1 : post.links.length < 3
  · rw [if_pos h1] at h; simp at h
  · rw [if_neg h1] at h
    cases h2 : post.links[2]? with
    | none => rw [h2] at h; simp at h
    | some page_url =>
      rw [h2] at h
      cases h3 : post.headings with
      | nil => rw [h3] at h; simp at h
      | cons hd tl =>
        rw [h3] at h
        cases page_url with
        | none => simp at h
        | some u =>
          dsimp only at h
          by_cases h4 : u = "" ∨ String.mk (pyStripL hd.toList) = ""
          · rw [if_pos h4] at h; simp at h
          · rw [if_neg h4] at h
            push_neg at h4
            injection h with h
            subst h
            refine ⟨h4.2, ?_, h4.1⟩
            exact isTrimmedB_pyStripL hd.toList

theorem searchGo_spec (fetch : Nat → PageResult) (maxR : Nat) :
    ∀ (fuel page : Nat) (acc : List Comic) (reqs : List Nat),
      acc.length < maxR →
      acc = (reqs.map (pageEntries fetch)).flatten →
      (searchGo fetch maxR fuel page acc reqs).1 =
        (((searchGo fetch maxR fuel page acc reqs).2.map
            (pageEntries fetch)).flatten).take maxR := by
  have hflat : ∀ (reqs : List Nat) (p : Nat),
      (((reqs ++ [p]).map (pageEntries fetch)).flatten) =
        ((reqs.map (pageEntries fetch)).flatten) ++ pageEntries fetch p := by
    intro reqs p
    simp
  intro fuel
  induction fuel with
  | zero =>
    intro page acc reqs hlen hacc
    simp only [searchGo]
    rw [← hacc]
    exact (List.take_of_length_le (le_of_lt hlen)).symm
  | succ fuel ih =>
    intro page acc reqs hlen hacc
    simp only [searchGo]
    rw [if_pos hlen]
    cases hf : fetch page with
    | fail =>
      have hpe : pageEntries fetch page = [] := by unfold pageEntries; rw [hf]
      show acc = _
      rw [hflat, hpe, List.append_nil, ← hacc]
      exact (List.take_of_length_le (le_of_lt hlen)).symm
    | ok articles =>
      dsimp only
      by_cases he : articles.isEmpty
      · rw [if_pos he]
        have hpe : pageEntries fetch page = [] := by
          unfold pageEntries
          rw [hf, List.isEmpty_iff.mp he]
          rfl
        show acc = _
        rw [hflat, hpe, List.append_nil, ← hacc]
        exact (List.take_of_length_le (le_of_lt hlen)).symm
      · rw [if_neg he]
        have hpe : pageEntries fetch page = articles.filterMap parsePost := by
          unfold pageEntries
          rw [hf]
        by_cases hpc : (articles.filterMap parsePost).isEmpty
        · rw [if_pos hpc]
          show acc = _
          rw [hflat, hpe, List.isEmpty_iff.mp hpc, List.append_nil, ← hacc]
          exact (List.take_of_length_le (le_of_lt hlen)).symm
        · rw [if_neg hpc]
          by_cases hcap : maxR ≤ (acc ++ articles.filterMap parsePost).length
          · rw [if_pos hcap]
            show (acc ++ articles.filterMap parsePost).take maxR = _
            rw [hflat, hpe, ← hacc]
          · rw [if_neg hcap]
            by_cases hpage : 10 < page + 1
            · rw [if_pos hpage]
              show acc ++ articles.filterMap parsePost = _
              rw [hflat, hpe, ← hacc]
              exact (List.take_of_length_le (by omega)).symm
            · rw [if_neg hpage]
              refine ih (page + 1) (acc ++ articles.filterMap parsePost)
                (reqs ++ [page]) (by omega) ?_
              rw [hflat, hpe, ← hacc]

/-- C3: with a positive cap, the search returns at most `max_results`
candidates, every returned candidate has a non-empty trimmed title and a
non-empty source page, and the result is exactly the earliest-discovered
valid entries of the requested pages truncated to the cap. -/
theorem spec_c3 (fetch : Nat → PageResult) (maxR : Nat) (h : 0 < maxR) :
    (search_comics fetch maxR).1.length ≤ maxR ∧
      (∀ c ∈ (search_comics fetch maxR).1,
        c.title ≠ "" ∧ isTrimmedB c.title.toList = true ∧ c.page_url ≠ "") ∧
      (search_comics fetch maxR).1 =
        (((search_comics fetch maxR).2.map
            (pageEntries fetch)).flatten).take maxR := by
  unfold search_comics
  have hspec := searchGo_spec fetch maxR 10 1 [] [] h rfl
  refine ⟨?_, ?_, hspec⟩
  · rw [hspec, List.length_take]
    omega
  · intro c hc
    rw [hspec] at hc
    have hc1 := (List.take_sublist _ _).subset hc
    rw [List.mem_flatten] at hc1
    obtain ⟨l, hl, hcl⟩ := hc1
    rw [List.mem_map] at hl
    obtain ⟨p, _, rfl⟩ := hl
    unfold pageEntries at hcl
    cases hf : fetch p with
    | fail => rw [hf] at hcl; simp at hcl
    | ok articles =>
      rw [hf] at hcl
      rw [List.mem_filterMap] at hcl
      obtain ⟨post, _, hpp⟩ := hcl
      exact parsePost_good post c hpp

/-- Witness for C3: on the scenario fetch environment with cap 5, the
bound and the field properties hold concretely. -/
theorem spec_c3_witness :
    (search_comics scenarioFetch 5).1.length ≤ 5 ∧
      (search_comics scenarioFetch 5).1.length = 3 :=
  ⟨(spec_c3 scenarioFetch 5 (by decide)).1, by decide⟩

/-! ## C7 -/

theorem searchGo_pages (fetch : Nat → PageResult) (maxR : Nat) :
    ∀ (fuel page : Nat) (acc : List Comic) (reqs : List Nat),
      1 ≤ page → page ≤ 10 → reqs.length < page →
      (∀ q ∈ reqs, 1 ≤ q ∧ q < page) →
      ((searchGo fetch maxR fuel page acc reqs).2.length ≤ 10 ∧
        ∀ q ∈ (searchGo fetch maxR fuel page acc reqs).2, 1 ≤ q ∧ q ≤ 10) := by
  intro fuel
  induction fuel with
  | zero =>
    intro page acc reqs h1 h10 hlen hq
    simp only [searchGo]
    refine ⟨by omega, ?_⟩
    intro q hq2
    have := hq q hq2
    omega
  | succ fuel ih =>
    intro page acc reqs h1 h10 hlen hq
    simp only [searchGo]
    by_cases hacc : acc.length < maxR
    · rw [if_pos hacc]
      have hbrk : (reqs ++ [page]).length ≤ 10 ∧
          ∀ q ∈ reqs ++ [page], 1 ≤ q ∧ q ≤ 10 := by
        refine ⟨by rw [List.length_append]; simp; omega, ?_⟩
        intro q hq2
        rcases List.mem_append.mp hq2 with hq2 | hq2
        · have := hq q hq2; omega
        · rw [List.mem_singleton] at hq2; subst hq2; omega
      cases hf : fetch page with
      | fail => exact hbrk
      | ok articles =>
        dsimp only
        by_cases he : articles.isEmpty
        · rw [if_pos he]; exact hbrk
        · rw [if_neg he]
          by_cases hpc : (articles.filterMap parsePost).isEmpty
          · rw [if_pos hpc]; exact hbrk
          · rw [if_neg hpc]
            by_cases hcap : maxR ≤ (acc ++ articles.filterMap parsePost).length
            · rw [if_pos hcap]; exact hbrk
            · rw [if_neg hcap]
              by_cases hpage : 10 < page + 1
              · rw [if_pos hpage]; exact hbrk
              · rw [if_neg hpage]
                refine ih (page + 1) _ (reqs ++ [page]) (by omega) (by omega)
                  (by rw [List.length_append]; simp; omega) ?_
                intro q hq2
                rcases List.mem_append.mp hq2 with hq2 | hq2
                · have := hq q hq2; omega
                · rw [List.mem_singleton] at hq2; subst hq2; omega
    · rw [if_neg hacc]
      refine ⟨?_, ?_⟩
      · show reqs.length ≤ 10
        omega
      · intro q hq2
        have := hq q hq2
        omega

theorem searchGo_stop (fetch : Nat → PageResult) (maxR : Nat) :
    ∀ (fuel page : Nat) (acc : List Comic) (reqs : List Nat),
      (∀ q ∈ reqs, q < page ∧ pageEntries fetch q ≠ []) →
      ∀ p ∈ (searchGo fetch maxR fuel page acc reqs).2,
        pageEntries fetch p = [] →
        ∀ q ∈ (searchGo fetch maxR fuel page acc reqs).2, q ≤ p := by
  intro fuel
  induction fuel with
  | zero =>
    intro page acc reqs hq p hp hstop q hq2
    simp only [searchGo] at hp hq2
    exact absurd hstop (hq p hp).2
  | succ fuel ih =>
    intro page acc reqs hq p hp hstop q hq2
    simp only [searchGo] at hp hq2
    by_cases hacc : acc.length < maxR
    · rw [if_pos hacc] at hp hq2
      have hbrk : p ∈ reqs ++ [page] → q ∈ reqs ++ [page] → q ≤ p := by
        intro hp2 hq3
        rcases List.mem_append.mp hp2 with hp2 | hp2
        · exact absurd hstop (hq p hp2).2
        · rw [List.mem_singleton] at hp2
          subst hp2
          rcases List.mem_append.mp hq3 with hq3 | hq3
          · exact le_of_lt (hq q hq3).1
          · rw [List.mem_singleton] at hq3; omega
      cases hf : fetch page with
      | fail =>
        rw [hf] at hp hq2
        exact hbrk hp hq2
      | ok articles =>
        rw [hf] at hp hq2
        dsimp only at hp hq2
        have hpe : pageEntries fetch page = articles.filterMap parsePost := by
          unfold pageEntries
          rw [hf]
        by_cases he : articles.isEmpty
        · rw [if_pos he] at hp hq2
          exact hbrk hp hq2
        · rw [if_neg he] at hp hq2
          by_cases hpc : (articles.filterMap parsePost).isEmpty
          · rw [if_pos hpc] at hp hq2
            exact hbrk hp hq2
          · rw [if_neg hpc] at hp hq2
            have hpage_ne : pageEntries fetch page ≠ [] := by
              rw [hpe]
              intro hcon
              rw [hcon] at hpc
              simp at hpc
            by_cases hcap : maxR ≤ (acc ++ articles.filterMap parsePost).length
            · rw [if_pos hcap] at hp hq2
              rcases List.mem_append.mp hp with hp2 | hp2
              · exact absurd hstop (hq p hp2).2
              · rw [List.mem_singleton] at hp2
                subst hp2
                exact absurd hstop hpage_ne
            · rw [if_neg hcap] at hp hq2
              by_cases hpage : 10 < page + 1
              · rw [if_pos hpage] at hp hq2
                rcases List.mem_append.mp hp with hp2 | hp2
                · exact absurd hstop (hq p hp2).2
                · rw [List.mem_singleton] at hp2
                  subst hp2
                  exact absurd hstop hpage_ne
              · rw [if_neg hpage] at hp hq2
                refine ih (page + 1) _ (reqs ++ [page]) ?_ p hp hstop q hq2
                intro r hr
                rcases List.mem_append.mp hr with hr | hr
                · exact ⟨by have := (hq r hr).1; omega, (hq r hr).2⟩
                · rw [List.mem_singleton] at hr
                  subst hr
                  exact ⟨by omega, hpage_ne⟩
    · rw [if_neg hacc] at hp hq2
      exact absurd hstop (hq p hp).2

/-- C7: the search never requests more than 10 pages, a requested page
with no valid entries is always the last page requested, and in the
spec's scenario (3 valid entries on page 1, none on page 2, cap 5) the
search returns exactly 3 candidates and requests pages 1 and 2 only. -/
theorem spec_c7 (fetch : Nat → PageResult) (maxR : Nat) :
    ((search_comics fetch maxR).2.length ≤ 10 ∧
        ∀ q ∈ (search_comics fetch maxR).2, 1 ≤ q ∧ q ≤ 10) ∧
      (∀ p ∈ (search_comics fetch maxR).2, pageEntries fetch p = [] →
        ∀ q ∈ (search_comics fetch maxR).2, q ≤ p) ∧
      (search_comics scenarioFetch 5).1.length = 3 ∧
      (search_comics scenarioFetch 5).2 = [1, 2] := by
  refine ⟨?_, ?_, by decide, by decide⟩
  · unfold search_comics
    exact searchGo_pages fetch maxR 10 1 [] [] (by omega) (by omega)
      (by simp) (by simp)
  · unfold search_comics
    exact searchGo_stop fetch maxR 10 1 [] [] (by simp)

/-- Witness for C7: page 2 of the scenario yields no valid entries and is
indeed the last page requested. -/
theorem spec_c7_witness :
    (2 ∈ (search_comics scenarioFetch 5).2) ∧ (1 : Nat) ≤ 2 :=
  ⟨by decide,
    (spec_c7 scenarioFetch 5).2.1 2 (by decide) (by decide) 1 (by decide)⟩

/-! ## C6 -/

/-- The link pattern matches at position `i` of `s`: the literal
`https://` occurs there, followed by at least one `linkChar`. -/
def startsMatch (s : List Char) (i : Nat) : Prop :=
  httpsPre.isPrefixOf (s.drop i) = true ∧
    (s.drop (i + 8)).takeWhile linkChar ≠ []

/-- The (greedy) value of the link pattern matching at position `i`. -/
def matchValue (s : List Char) (i : Nat) : List Char :=
  httpsPre ++ (s.drop (i + 8)).takeWhile linkChar

theorem startsMatch_cons (c : Char) (s : List Char) (i : Nat) :
    startsMatch (c :: s) (i + 1) ↔ startsMatch s i := by
  unfold startsMatch
  rw [List.drop_succ_cons]
  rw [show i + 1 + 8 = (i + 8) + 1 by omega, List.drop_succ_cons]

theorem matchValue_cons (c : Char) (s : List Char) (i : Nat) :
    matchValue (c :: s) (i + 1) = matchValue s i := by
  unfold matchValue
  rw [show i + 1 + 8 = (i + 8) + 1 by omega, List.drop_succ_cons]

theorem matchHttpsAt_eq_some {l m : List Char} :
    matchHttpsAt l = some m ↔ startsMatch l 0 ∧ m = matchValue l 0 := by
  unfold matchHttpsAt startsMatch matchValue
  simp only [List.drop_zero, Nat.zero_add]
  by_cases hp : httpsPre.isPrefixOf l = true
  · rw [if_pos hp]
    by_cases hb : ((l.drop 8).takeWhile linkChar).isEmpty
    · rw [if_pos hb]
      rw [List.isEmpty_iff] at hb
      simp [hb, hp]
    · rw [if_neg hb]
      rw [Bool.not_eq_true, List.isEmpty_eq_false] at hb
      simp only [Option.some.injEq]
      constructor
      · intro h
        exact ⟨⟨hp, hb⟩, h.symm⟩
      · intro ⟨_, h⟩
        exact h.symm
  · rw [if_neg hp]
    simp [hp]

theorem matchHttpsAt_eq_none {l : List Char} :
    matchHttpsAt l = none ↔ ¬startsMatch l 0 := by
  unfold matchHttpsAt startsMatch
  simp only [List.drop_zero, Nat.zero_add]
  by_cases hp : httpsPre.isPrefixOf l = true
  · rw [if_pos hp]
    by_cases hb : ((l.drop 8).takeWhile linkChar).isEmpty
    · rw [if_pos hb]
      rw [List.isEmpty_iff] at hb
      simp [hb, hp]
    · rw [if_neg hb]
      rw [Bool.not_eq_true, List.isEmpty_eq_false] at hb
      simp [hp, hb]
  · rw [if_neg hp]
    simp [hp]

theorem scanLink_eq_none :
    ∀ s : List Char, scanLink s = none ↔ ∀ i, ¬startsMatch s i := by
  intro s
  induction s with
  | nil =>
    simp only [scanLink, true_iff]
    intro i ⟨h1, _⟩
    rw [List.drop_nil] at h1
    exact absurd h1 (by decide)
  | cons c s ih =>
    simp only [scanLink]
    cases hm : matchHttpsAt (c :: s) with
    | some m =>
      have hs := matchHttpsAt_eq_some.mp hm
      constructor
      · intro h; exact absurd h (by simp)
      · intro h; exact absurd hs.1 (h 0)
    | none =>
      have hn := matchHttpsAt_eq_none.mp hm
      rw [ih]
      constructor
      · intro h i
        cases i with
        | zero => exact hn
        | succ j => rw [startsMatch_cons]; exact h j
      · intro h i
        have := h (i + 1)
        rw [startsMatch_cons] at this
        exact this

theorem scanLink_eq_some :
    ∀ (s m : List Char), scanLink s = some m →
      ∃ i, startsMatch s i ∧ m = matchValue s i ∧
        ∀ j < i, ¬startsMatch s j := by
  intro s
  induction s with
  | nil => intro m h; simp [scanLink] at h
  | cons c s ih =>
    intro m h
    simp only [scanLink] at h
    cases hm : matchHttpsAt (c :: s) with
    | some m' =>
      rw [hm] at h
      injection h with h
      subst h
      have hs := matchHttpsAt_eq_some.mp hm
      exact ⟨0, hs.1, hs.2, by omega⟩
    | none =>
      rw [hm] at h
      obtain ⟨i, hi1, hi2, hi3⟩ := ih m h
      refine ⟨i + 1, ?_, ?_, ?_⟩
      · rw [startsMatch_cons]; exact hi1
      · rw [matchValue_cons]; exact hi2
      · intro j hj
        cases j with
        | zero => exact matchHttpsAt_eq_none.mp hm
        | succ j' =>
          rw [startsMatch_cons]
          exact hi3 j' (by omega)

theorem scanLink_some_ne_nil {s m : List Char} (h : scanLink s = some m) :
    m ≠ [] := by
  obtain ⟨i, _, hm, _⟩ := scanLink_eq_some s m h
  subst hm
  unfold matchValue httpsPre
  simp

/-- A resolved link is never the empty string. -/
theorem extract_download_link_ne_empty (fetch : String → DetailFetch)
    (u m : String) (h : extract_download_link fetch u = some m) : m ≠ "" := by
  unfold extract_download_link at h
  cases hf : fetch u with
  | fail => rw [hf] at h; simp at h
  | ok divs =>
    rw [hf] at h
    cases divs with
    | nil => simp at h
    | cons d ds =>
      dsimp only at h
      cases hs : scanLink d.toList with
      | none => rw [hs] at h; simp at h
      | some l =>
        rw [hs] at h
        injection h with h
        subst h
        intro hcon
        exact scanLink_some_ne_nil hs (congrArg String.toList hcon)

/-- C6: the resolver returns absent on transport/parse failure, when the
designated container is absent, and when no `https`-shaped pattern occurs
in the first container; otherwise it returns exactly the leftmost, greedy
match of the pattern in the first container's serialized content. It
never raises: it is a total function into `Option`. -/
theorem spec_c6 (fetch : String → DetailFetch) (u : String) :
    (fetch u = DetailFetch.fail → extract_download_link fetch u = none) ∧
      (fetch u = DetailFetch.ok [] → extract_download_link fetch u = none) ∧
      (∀ d ds, fetch u = DetailFetch.ok (d :: ds) →
        (∀ i, ¬startsMatch d.toList i) →
        extract_download_link fetch u = none) ∧
      (∀ d ds m, fetch u = DetailFetch.ok (d :: ds) →
        extract_download_link fetch u = some m →
        ∃ i, startsMatch d.toList i ∧ m.toList = matchValue d.toList i ∧
          ∀ j < i, ¬startsMatch d.toList j) := by
  refine ⟨?_, ?_, ?_, ?_⟩
  · intro h
    unfold extract_download_link
    rw [h]
  · intro h
    unfold extract_download_link
    rw [h]
  · intro d ds h hnone
    unfold extract_download_link
    rw [h]
    dsimp only
    rw [(scanLink_eq_none d.toList).mpr hnone]
  · intro d ds m h hext
    unfold extract_download_link at hext
    rw [h] at hext
    dsimp only at hext
    cases hs : scanLink d.toList with
    | none => rw [hs] at hext; simp at hext
    | some l =>
      rw [hs] at hext
      injection hext with hext
      subst hext
      exact scanLink_eq_some d.toList l hs

/-- Witness for C6: a failing fetch yields absent, and on a concrete
container the leftmost match is returned. -/
theorem spec_c6_witness :
    extract_download_link (fun _ => DetailFetch.fail) "u" = none ∧
      extract_download_link
          (fun _ => DetailFetch.ok ["x https://a.b/c end"]) "u" =
        some "https://a.b/c" :=
  ⟨(spec_c6 (fun _ => DetailFetch.fail) "u").1 rfl, by decide⟩

/-! ## C5 -/

theorem create_download_dir_ok {fs fs' : FS} {dir : String}
    (h : create_download_dir fs dir = (true, fs')) :
    fs'.dirs.contains dir = true ∧ fs'.files = fs.files := by
  unfold create_download_dir at h
  by_cases h1 : fs.dirs.contains dir = true
  · rw [if_pos h1] at h
    simp only [Prod.mk.injEq] at h
    rw [← h.2]
    exact ⟨h1, rfl⟩
  · rw [if_neg h1] at h
    by_cases h2 : fs.mkdirOk = true
    · rw [if_pos h2] at h
      simp only [Prod.mk.injEq] at h
      rw [← h.2]
      refine ⟨?_, rfl⟩
      simp [List.contains_cons]
    · rw [if_neg h2] at h
      simp at h

theorem create_download_dir_of_dirs {fs : FS} {dir : String}
    (hdir : fs.dirs.contains dir = true) :
    create_download_dir fs dir = (true, fs) := by
  unfold create_download_dir
  rw [if_pos hdir]

theorem download_file_exists_skip {net : String → NetResult} {fs : FS}
    {link fname dir : String}
    (hdir : fs.dirs.contains dir = true)
    (hex : fs.fileExists (computedPath dir fname link) = true) :
    download_file net fs link fname dir = (true, fs, false) := by
  unfold download_file
  rw [create_download_dir_of_dirs hdir]
  dsimp only
  rw [if_pos hex]
  simp

theorem download_file_ok_post {net : String → NetResult} {fs fs' : FS}
    {link fname dir : String} {tr : Bool}
    (h : download_file net fs link fname dir = (true, fs', tr)) :
    fs'.fileExists (computedPath dir fname link) = true ∧
      fs'.dirs.contains dir = true := by
  unfold download_file at h
  rcases hcd : create_download_dir fs dir with ⟨ok1, fs1⟩
  rw [hcd] at h
  dsimp only at h
  cases ok1 with
  | false => simp at h
  | true =>
    have hc := create_download_dir_ok hcd
    rw [show (!true) = false from rfl] at h
    rw [if_neg (by simp)] at h
    by_cases hex : fs1.fileExists (computedPath dir fname link) = true
    · rw [if_pos hex] at h
      simp only [Prod.mk.injEq] at h
      rw [← h.2.1]
      exact ⟨hex, hc.1⟩
    · rw [if_neg hex] at h
      cases hnet : net link with
      | success content =>
        rw [hnet] at h
        simp only [Prod.mk.injEq] at h
        rw [← h.2.1]
        constructor
        · unfold FS.fileExists
          simp
        · exact hc.1
      | failBefore => rw [hnet] at h; simp at h
      | failMid w => rw [hnet] at h; simp at h

theorem processComic_exists_skip (detail : String → DetailFetch)
    (net : String → NetResult) (fs : FS) (comic : Comic) (dir l : String)
    (hl : comic.download_link = some l) (hne : l ≠ "")
    (hdir : fs.dirs.contains dir = true)
    (hex : fs.fileExists (computedPath dir comic.title l) = true) :
    processComic detail net fs comic dir =
      { comic := { comic with download_link := some l, downloaded := true },
        fs := fs, transferred := false, resolverCalled := false,
        success := true } := by
  unfold processComic
  rw [hl]
  dsimp only
  rw [if_neg hne]
  unfold downloadLinked
  rw [download_file_exists_skip hdir hex]
  simp

theorem downloadLinked_success_post {net : String → NetResult} {fs : FS}
    {comic : Comic} {dir l : String} {called : Bool}
    (h : (downloadLinked net fs comic dir l called).success = true) :
    (downloadLinked net fs comic dir l called).comic.download_link = some l ∧
      (downloadLinked net fs comic dir l called).comic.downloaded = true ∧
      (downloadLinked net fs comic dir l called).comic.title = comic.title ∧
      (downloadLinked net fs comic dir l called).fs.fileExists
          (computedPath dir comic.title l) = true ∧
      (downloadLinked net fs comic dir l called).fs.dirs.contains dir = true := by
  unfold downloadLinked at h ⊢
  rcases hdf : download_file net fs l comic.title dir with ⟨ok, fs', tr⟩
  dsimp only at h ⊢
  rw [hdf] at h
  dsimp only at h
  cases ok with
  | false => simp at h
  | true =>
    have hpost := download_file_ok_post hdf
    refine ⟨by simp, by simp, by simp, ?_, ?_⟩
    · simpa using hpost.1
    · simpa using hpost.2

theorem processComic_success_post {detail : String → DetailFetch}
    {net : String → NetResult} {fs : FS} {comic : Comic} {dir : String}
    (h : (processComic detail net fs comic dir).success = true) :
    ∃ l : String,
      (processComic detail net fs comic dir).comic.download_link = some l ∧
        l ≠ "" ∧
        (processComic detail net fs comic dir).comic.downloaded = true ∧
        (processComic detail net fs comic dir).comic.title = comic.title ∧
        (processComic detail net fs comic dir).fs.fileExists
            (computedPath dir comic.title l) = true ∧
        (processComic detail net fs comic dir).fs.dirs.contains dir = true := by
  unfold processComic at h ⊢
  cases hl0 : comic.download_link with
  | none =>
    rw [hl0] at h
    dsimp only at h ⊢
    unfold resolveOutcome at h ⊢
    cases he : extract_download_link detail comic.page_url with
    | none =>
      rw [he] at h
      simp at h
    | some l =>
      rw [he] at h
      dsimp only at h ⊢
      have hne := extract_download_link_ne_empty detail _ l he
      have hp := downloadLinked_success_post h
      exact ⟨l, hp.1, hne, hp.2.1, hp.2.2.1, hp.2.2.2.1, hp.2.2.2.2⟩
  | some l0 =>
    rw [hl0] at h
    dsimp only at h ⊢
    by_cases hl0e : l0 = ""
    · rw [if_pos hl0e] at h ⊢
      unfold resolveOutcome at h ⊢
      cases he : extract_download_link detail comic.page_url with
      | none =>
        rw [he] at h
        simp at h
      | some l =>
        rw [he] at h
        dsimp only at h ⊢
        have hne := extract_download_link_ne_empty detail _ l he
        have hp := downloadLinked_success_post h
        exact ⟨l, hp.1, hne, hp.2.1, hp.2.2.1, hp.2.2.2.1, hp.2.2.2.2⟩
    · rw [if_neg hl0e] at h ⊢
      have hp := downloadLinked_success_post h
      exact ⟨l0, hp.1, hl0e, hp.2.1, hp.2.2.1, hp.2.2.2.1, hp.2.2.2.2⟩

/-- C5: a candidate whose computed destination path already exists is
reported downloaded and successful with no network transfer and no change
to the filesystem; and after any successful run, a second run with the
updated state is downloaded again with no network transfer. -/
theorem spec_c5 (detail : String → DetailFetch) (net : String → NetResult)
    (fs : FS) (comic : Comic) (dir l : String) :
    (comic.download_link = some l → l ≠ "" →
        fs.dirs.contains dir = true →
        fs.fileExists (computedPath dir comic.title l) = true →
        (processComic detail net fs comic dir).comic.downloaded = true ∧
          (processComic detail net fs comic dir).success = true ∧
          (processComic detail net fs comic dir).fs = fs ∧
          (processComic detail net fs comic dir).transferred = false) ∧
      ((processComic detail net fs comic dir).success = true →
        (processComic detail net fs comic dir).comic.downloaded = true ∧
          (processComic detail net (processComic detail net fs comic dir).fs
              (processComic detail net fs comic dir).comic
              dir).comic.downloaded = true ∧
          (processComic detail net (processComic detail net fs comic dir).fs
              (processComic detail net fs comic dir).comic
              dir).transferred = false) := by
  constructor
  · intro hl hne hdir hex
    rw [processComic_exists_skip detail net fs comic dir l hl hne hdir hex]
    exact ⟨rfl, rfl, rfl, rfl⟩
  · intro hsucc
    obtain ⟨l1, hlink, hne1, hdl, htitle, hex1, hdir1⟩ :=
      processComic_success_post hsucc
    refine ⟨hdl, ?_, ?_⟩
    · rw [processComic_exists_skip detail net _ _ dir l1 hlink hne1 hdir1
        (by rw [htitle]; exact hex1)]
    · rw [processComic_exists_skip detail net _ _ dir l1 hlink hne1 hdir1
        (by rw [htitle]; exact hex1)]

/-- Witness for C5: with the destination file `d/t.cbr` already present,
processing the sample candidate reports success with no transfer. -/
theorem spec_c5_witness :
    (processComic (fun _ => DetailFetch.fail) (fun _ => NetResult.failBefore)
          sampleFS sampleComic "d").comic.downloaded = true ∧
      (processComic (fun _ => DetailFetch.fail) (fun _ => NetResult.failBefore)
          sampleFS sampleComic "d").transferred = false :=
  have h := (spec_c5 (fun _ => DetailFetch.fail) (fun _ => NetResult.failBefore)
    sampleFS sampleComic "d" "x").1 (by decide) (by decide) (by decide)
    (by decide)
  ⟨h.1, h.2.2.2⟩

/-! ## C8 -/

theorem processComic_no_reresolve (detail : String → DetailFetch)
    (net : String → NetResult) (fs : FS) (comic : Comic) (dir l : String)
    (hl : comic.download_link = some l) (hne : l ≠ "") :
    (processComic detail net fs comic dir).resolverCalled = false ∧
      (processComic detail net fs comic dir).comic.download_link = some l := by
  unfold processComic
  rw [hl]
  dsimp only
  rw [if_neg hne]
  unfold downloadLinked
  rcases hdf : download_file net fs l comic.title dir with ⟨ok, fs', tr⟩
  dsimp only
  cases ok
  · simp
  · simp

theorem processComic_downloaded_mono (detail : String → DetailFetch)
    (net : String → NetResult) (fs : FS) (comic : Comic) (dir : String)
    (h : comic.downloaded = true) :
    (processComic detail net fs comic dir).comic.downloaded = true := by
  unfold processComic
  cases hl0 : comic.download_link with
  | none =>
    dsimp only
    unfold resolveOutcome
    cases he : extract_download_link detail comic.page_url with
    | none => dsimp only; exact h
    | some l =>
      dsimp only
      unfold downloadLinked
      rcases hdf : download_file net fs l comic.title dir with ⟨ok, fs', tr⟩
      dsimp only
      cases ok
      · simpa using h
      · simp
  | some l0 =>
    dsimp only
    by_cases hl0e : l0 = ""
    · rw [if_pos hl0e]
      unfold resolveOutcome
      cases he : extract_download_link detail comic.page_url with
      | none => dsimp only; exact h
      | some l =>
        dsimp only
        unfold downloadLinked
        rcases hdf : download_file net fs l comic.title dir with ⟨ok, fs', tr⟩
        dsimp only
        cases ok
        · simpa using h
        · simp
    · rw [if_neg hl0e]
      unfold downloadLinked
      rcases hdf : download_file net fs l0 comic.title dir with ⟨ok, fs', tr⟩
      dsimp only
      cases ok
      · simpa using h
      · simp

/-- The per-candidate invariant of C8: a non-absent, non-empty resolved
link is never changed, and `downloaded` never reverts from `true`. -/
def comicPreserved (c c' : Comic) : Prop :=
  (∀ l : String, l ≠ "" → c.download_link = some l →
    c'.download_link = some l) ∧
    (c.downloaded = true → c'.downloaded = true)

theorem comicPreserved_refl (c : Comic) : comicPreserved c c :=
  ⟨fun _ _ h => h, fun h => h⟩

theorem comicPreserved_trans {a b c : Comic} (h1 : comicPreserved a b)
    (h2 : comicPreserved b c) : comicPreserved a c :=
  ⟨fun l hne hl => h2.1 l hne (h1.1 l hne hl), fun h => h2.2 (h1.2 h)⟩

theorem processComic_preserves (detail : String → DetailFetch)
    (net : String → NetResult) (fs : FS) (comic : Comic) (dir : String) :
    comicPreserved comic (processComic detail net fs comic dir).comic :=
  ⟨fun l hne hl =>
      (processComic_no_reresolve detail net fs comic dir l hl hne).2,
    fun h => processComic_downloaded_mono detail net fs comic dir h⟩

theorem dscStep_preserves (detail : String → DetailFetch)
    (net : String → NetResult) (dir : String) (st : List Comic × FS)
    (idx i : Nat) (c : Comic) (hc : st.1[i]? = some c) :
    ∃ c', (dscStep detail net dir st idx).1[i]? = some c' ∧
      comicPreserved c c' := by
  unfold dscStep
  cases hidx : st.1[idx]? with
  | none => exact ⟨c, hc, comicPreserved_refl c⟩
  | some cx =>
    dsimp only
    by_cases hii : idx = i
    · subst hii
      have hlt : idx < st.1.length := by
        rcases List.getElem?_eq_some.mp hidx with ⟨hlt, _⟩
        exact hlt
      have hcc : cx = c := by
        rw [hidx] at hc
        injection hc
      subst hcc
      refine ⟨(processComic detail net st.2 cx dir).comic, ?_, ?_⟩
      · rw [List.getElem?_set_self hlt]
      · exact processComic_preserves detail net st.2 cx dir
    · refine ⟨c, ?_, comicPreserved_refl c⟩
      rw [List.getElem?_set_ne hii]
      exact hc

theorem foldl_dscStep_preserves (detail : String → DetailFetch)
    (net : String → NetResult) (dir : String) :
    ∀ (selected : List Nat) (st : List Comic × FS) (i : Nat) (c : Comic),
      st.1[i]? = some c →
      ∃ c', (selected.foldl (dscStep detail net dir) st).1[i]? = some c' ∧
        comicPreserved c c' := by
  intro selected
  induction selected with
  | nil =>
    intro st i c hc
    exact ⟨c, hc, comicPreserved_refl c⟩
  | cons idx rest ih =>
    intro st i c hc
    rw [List.foldl_cons]
    obtain ⟨c1, hc1, hp1⟩ := dscStep_preserves detail net dir st idx i c hc
    obtain ⟨c2, hc2, hp2⟩ := ih (dscStep detail net dir st idx) i c1 hc1
    exact ⟨c2, hc2, comicPreserved_trans hp1 hp2⟩

/-- C8: a candidate's non-absent (truthy) resolved link is never
re-resolved or changed by processing, `downloaded` never reverts from
`true`, links produced by the resolver are never the empty string, and
these invariants are preserved pointwise across a whole
`download_selected_comics` batch. -/
theorem spec_c8 (detail : String → DetailFetch) (net : String → NetResult)
    (dir : String) :
    (∀ (fs : FS) (comic : Comic) (l : String), l ≠ "" →
        comic.download_link = some l →
        (processComic detail net fs comic dir).resolverCalled = false ∧
          (processComic detail net fs comic dir).comic.download_link =
            some l) ∧
      (∀ (fs : FS) (comic : Comic), comic.downloaded = true →
        (processComic detail net fs comic dir).comic.downloaded = true) ∧
      (∀ (f : String → DetailFetch) (u m : String),
        extract_download_link f u = some m → m ≠ "") ∧
      (∀ (comics : List Comic) (selected : List Nat) (fs : FS) (i : Nat)
          (c : Comic), comics[i]? = some c →
        ∃ c',
          (download_selected_comics detail net comics selected dir
              fs).1[i]? = some c' ∧ comicPreserved c c') := by
  refine ⟨?_, ?_, ?_, ?_⟩
  · intro fs comic l hne hl
    exact processComic_no_reresolve detail net fs comic dir l hl hne
  · intro fs comic h
    exact processComic_downloaded_mono detail net fs comic dir h
  · intro f u m h
    exact extract_download_link_ne_empty f u m h
  · intro comics selected fs i c hc
    exact foldl_dscStep_preserves detail net dir selected (comics, fs) i c hc

/-- Witness for C8: the sample candidate's pre-set link suppresses the
resolver and survives processing unchanged. -/
theorem spec_c8_witness :
    (processComic (fun _ => DetailFetch.fail) (fun _ => NetResult.failBefore)
          sampleFS sampleComic "d").resolverCalled = false ∧
      (processComic (fun _ => DetailFetch.fail)
          (fun _ => NetResult.failBefore) sampleFS sampleComic
          "d").comic.download_link = some "x" :=
  (spec_c8 (fun _ => DetailFetch.fail) (fun _ => NetResult.failBefore)
      "d").1 sampleFS sampleComic "x" (by decide) (by decide)

/-! ## Behavioral sanity checks -/

section SanityChecks

example : get_user_selection "q" 10 = SelectionResult.cancel := by decide
example : get_user_selection " Q " 10 = SelectionResult.cancel := by decide
example : get_user_selection "1,3,7-9,q" 10 = SelectionResult.invalidFormat := by decide
example : get_user_selection "2-4,2" 10 = SelectionResult.chosen [1, 2, 3] := by decide
example : get_user_selection "all" 3 = SelectionResult.chosen [0, 1, 2] := by decide
example : get_user_selection "100,2" 10 = SelectionResult.chosen [1] := by decide
example : get_user_selection "abc,2" 10 = SelectionResult.invalidFormat := by decide
example : get_user_selection "5-2,1" 10 = SelectionResult.chosen [0] := by decide
example : get_user_selection "0" 10 = SelectionResult.noValidSelection := by decide

example : sanitize_filename " <" = "_" := by decide
example : sanitize_filename "a<b:c" = "a_b_c" := by decide
example : sanitize_filename "a   b" = "a b" := by decide

example : (search_comics scenarioFetch 5).2 = [1, 2] := by decide
example : (search_comics scenarioFetch 5).1.length = 3 := by decide
example : (search_comics scenarioFetch 2).1.length = 2 := by decide
example : (search_comics scenarioFetch 2).2 = [1] := by decide

example :
    extract_download_link
      (fun _ => DetailFetch.ok ["<a href=\"https://dl.example.com/a-b\">x</a>"])
      "u" = some "https://dl.example.com/a-b" := by decide

example :
    extract_download_link (fun _ => DetailFetch.ok ["no link here"]) "u" =
      none := by decide

example :
    (processComic (fun _ => DetailFetch.fail) (fun _ => NetResult.failBefore)
        sampleFS sampleComic "d").comic.downloaded = true := by decide

example :
    (processComic (fun _ => DetailFetch.fail) (fun _ => NetResult.failBefore)
        sampleFS sampleComic "d").transferred = false := by decide

end SanityChecks
